import Mathlib

/-!
# Verification of the fitness-tracker workout pipeline

A shallow embedding of the workout-log parsing, calorie-estimation and
dashboard-aggregation logic of `src/controllers/User.js`, together with
proofs settling the frozen claims about the natural-language specification.

Modelling conventions:

* JavaScript strings are modelled as `List Char` (`Str`).  The string
  operations the code uses (`split`, `trim`, `substring(1)`, `startsWith`)
  are modelled by executable functions below with JavaScript semantics
  (`split` on a literal separator keeps empty pieces, `trim` strips
  whitespace from both ends, `substring(1)` drops the first character).
* JavaScript numbers produced by `parseFloat` are modelled as exact
  unnormalised rationals `JsNum` (an integer numerator over a positive
  power-of-ten denominator); `NaN` is modelled by `Option.none`.
  `parseInt` applied to a number (as in `calculateCaloriesBurnt`) first
  converts the number to a string and is modelled accordingly
  (`JsNum.parseIntNum`): truncation toward zero on the decimal-notation
  range (zero, or magnitude in `[1e-6, 1e21)`), and the sign times the
  leading mantissa digit of the exponential rendering outside it.
* `next(createError ...)` calls are modelled by appending a `WError` to an
  error trace: inside `forEach`, `return next(...)` returns only from the
  callback, so execution of the handler continues and several errors can
  be signalled in one request.  A thrown exception (e.g. calling `.split`
  on `undefined`) aborts the handler and is modelled by the
  `Option String` "thrown" component.
* Dates in the dashboard are modelled by integer day indices; the
  day-of-month function `getDate()` is an abstract parameter
  `dom : Int → Nat`.  A stored workout is in a day's
  `[startOfDay, nextMidnight)` range exactly when its day index equals
  that day's index.
-/

namespace FitnessTracker

/-- JavaScript strings, modelled as lists of characters. -/
abbrev Str := List Char

/-! ## JavaScript string primitives -/

/-- Does `pat` occur as a prefix of `s`?  (Helper for `split`.) -/
def startsWithPat : Str → Str → Bool
  | [], _ => true
  | _ :: _, [] => false
  | p :: ps, c :: cs => p = c && startsWithPat ps cs

/-- First occurrence of `pat` in `s`: the part before it and the part
after it, or `none` if `pat` does not occur. -/
def findSplit (pat : Str) : Str → Option (Str × Str)
  | [] => if startsWithPat pat [] then some ([], []) else none
  | c :: cs =>
    if startsWithPat pat (c :: cs) then some ([], (c :: cs).drop pat.length)
    else match findSplit pat cs with
      | some (b, a) => some (c :: b, a)
      | none => none

/-- Fuelled splitting worker (the fuel makes it structurally recursive). -/
def splitOnFuel (pat : Str) : Nat → Str → List Str
  | 0, s => [s]
  | fuel + 1, s =>
    match findSplit pat s with
    | none => [s]
    | some (b, a) => b :: splitOnFuel pat fuel a

/-- JavaScript `s.split(pat)` for a non-empty literal separator `pat`:
splits at every occurrence and keeps empty pieces. -/
def jsSplit (pat : Str) (s : Str) : List Str :=
  splitOnFuel pat (s.length + 1) s

/-- Right-trim: remove trailing whitespace. -/
def jsTrimEnd (s : Str) : Str :=
  (s.reverse.dropWhile Char.isWhitespace).reverse

/-- JavaScript `s.trim()`: strip whitespace from both ends. -/
def jsTrim (s : Str) : Str :=
  jsTrimEnd (s.dropWhile Char.isWhitespace)

/-! ## JavaScript numeric primitives -/

/-- Decimal value of a digit string. -/
def digitsVal (s : Str) : Nat :=
  s.foldl (fun a c => 10 * a + (c.toNat - 48)) 0

/-- Read an optional leading sign, returning the sign and the rest. -/
def readSign (s : Str) : Int × Str :=
  match s with
  | [] => (1, s)
  | c :: rest => if c = '-' then (-1, rest) else if c = '+' then (1, rest) else (1, s)

/-- JavaScript `parseInt(s, 10)`: skip leading whitespace, optional sign,
then the longest digit run; `NaN` (here `none`) if there are no digits. -/
def jsParseInt (s : Str) : Option Int :=
  let cs := s.dropWhile Char.isWhitespace
  let sr := readSign cs
  let ds := sr.2.takeWhile Char.isDigit
  if ds.isEmpty then none else some (sr.1 * (digitsVal ds : Int))

/-- An exact JavaScript number: numerator over (intended positive)
denominator, not normalised.  `toRat` gives its mathematical value. -/
structure JsNum where
  num : Int
  den : Nat
deriving DecidableEq

/-- Mathematical value of a `JsNum`. -/
def JsNum.toRat (x : JsNum) : ℚ := (x.num : ℚ) / (x.den : ℚ)

/-- JavaScript `parseFloat(s)`: skip leading whitespace, optional sign,
digits, optional fraction, optional exponent; `NaN` (`none`) if no digit
is found before the exponent. -/
def jsParseFloat (s : Str) : Option JsNum :=
  let cs := s.dropWhile Char.isWhitespace
  let sr := readSign cs
  let ids := sr.2.takeWhile Char.isDigit
  let r1 := sr.2.drop ids.length
  let fds := if r1.head? = some '.' then (r1.drop 1).takeWhile Char.isDigit else []
  let r2 := if r1.head? = some '.' then (r1.drop 1).drop fds.length else r1
  if ids.isEmpty && fds.isEmpty then none
  else
    let base : Nat := digitsVal ids * 10 ^ fds.length + digitsVal fds
    let ex : Int :=
      if r2.head? = some 'e' || r2.head? = some 'E' then
        let sr2 := readSign (r2.drop 1)
        let eds := sr2.2.takeWhile Char.isDigit
        if eds.isEmpty then 0 else sr2.1 * (digitsVal eds : Int)
      else 0
    some (if 0 ≤ ex then ⟨sr.1 * ((base * 10 ^ ex.toNat : Nat) : Int), 10 ^ fds.length⟩
          else ⟨sr.1 * (base : Int), 10 ^ fds.length * 10 ^ ex.natAbs⟩)

/-- Truncation toward zero of an exact number (the numerator's sign times
the natural division of the magnitudes).  This agrees with JavaScript's
`parseInt`-of-a-number only on the decimal-notation range — see
`JsNum.parseIntNum` for the faithful model. -/
def JsNum.truncToInt (x : JsNum) : Int :=
  if 0 ≤ x.num then ((x.num.toNat / x.den : Nat) : Int)
  else -(((-x.num).toNat / x.den : Nat) : Int)

/-- Leading decimal digit worker (the fuel makes it structural). -/
def leadDigitAux : Nat → Nat → Nat
  | 0, n => n
  | f + 1, n => if n < 10 then n else leadDigitAux f (n / 10)

/-- Leading decimal digit of a natural number. -/
def leadDigit (n : Nat) : Nat := leadDigitAux n n

/-- For `0 < a < b`, multiply `a` by ten until it reaches `b` and divide:
this is the leading decimal digit of the fraction `a / b < 1`.  The fuel
makes it structural; `b` steps always suffice. -/
def smallLeadAux (b : Nat) : Nat → Nat → Nat
  | 0, a => a / b
  | f + 1, a => if b ≤ 10 * a then (10 * a) / b else smallLeadAux b f (10 * a)

/-- Leading decimal digit of the fraction `a / b` when `0 < a < b`. -/
def smallLead (a b : Nat) : Nat := smallLeadAux b b a

/-- Is a number in the range where `Number.prototype.toString` uses plain
decimal notation: zero, or magnitude in `[1e-6, 1e21)`? -/
def JsNum.inDecimalRange (x : JsNum) : Prop :=
  x.num = 0 ∨ (x.den ≤ x.num.natAbs * 10 ^ 6 ∧ x.num.natAbs < 10 ^ 21 * x.den)

instance (x : JsNum) : Decidable x.inDecimalRange := by
  unfold JsNum.inDecimalRange; infer_instance

/-- JavaScript's `parseInt` applied to a number, as in
`parseInt(workoutDetails.duration)`: the number is first converted to a
string and the digit prefix of that string is parsed.  `toString` uses
plain decimal notation for zero and for magnitudes in `[1e-6, 1e21)`, on
which `parseInt` returns the truncation toward zero; outside that range
it uses exponential notation `d.ddd…e±k`, on which `parseInt` stops at
the `.` or `e` and returns the sign times the leading mantissa digit
(`parseInt(1e22) = 1`, `parseInt(5e-7) = 5`).  (The model works at the
exact-rational granularity used throughout this file; binary64 rounding
of the underlying double is not modelled.) -/
def JsNum.parseIntNum (x : JsNum) : Int :=
  let a := x.num.natAbs
  let sgn : Int := if x.num < 0 then -1 else 1
  if a = 0 then 0
  else if x.den ≤ a * 10 ^ 6 ∧ a < 10 ^ 21 * x.den then
    sgn * ((a / x.den : Nat) : Int)
  else if a < x.den then
    sgn * ((smallLead a x.den : Nat) : Int)
  else
    sgn * ((leadDigit (a / x.den) : Nat) : Int)

/-! ## Data model -/

/-- The object built by `parseWorkoutLine` (plus the `category` field that
`addWorkout` assigns afterwards).  `none` in a numeric field models `NaN`. -/
structure WorkoutDetails where
  workoutName : Str
  sets : Option Int
  reps : Option Int
  weight : Option JsNum
  duration : Option JsNum
  category : Str := []
deriving DecidableEq

/-- A document handed to `Workout.insertMany`: the parsed details spread
together with the derived `caloriesBurned` and the `user` reference. -/
structure InsertedWorkout where
  category : Str
  workoutName : Str
  sets : Option Int
  reps : Option Int
  weight : Option JsNum
  duration : Option JsNum
  caloriesBurned : Option Int
  user : Str
deriving DecidableEq

/-- The errors `addWorkout` can signal through `next(createError ...)`,
plus `internalError` for a caught exception. -/
inductive WError where
  /-- 401 "Unauthorized". -/
  | unauthorized
  /-- 400 "Workout string is missing". -/
  | missingString
  /-- 400 "Workout string is missing details for the `ordinal`-th workout". -/
  | missingDetails (ordinal : Nat)
  /-- 400 "Please enter proper format for the `ordinal`-th workout". -/
  | badFormat (ordinal : Nat)
  /-- 400 "No valid workouts found in the workout string". -/
  | emptyInput
  /-- A thrown exception reaching the `catch` block (500 path). -/
  | internalError (msg : String)
deriving DecidableEq

/-- Everything observable about one `addWorkout` request: the `next(err)`
calls made (in order), the documents passed to `insertMany` (`[]` when the
insert is never reached), and whether the 201 success response is reached. -/
structure AddWorkoutOutcome where
  errors : List WError
  inserted : List InsertedWorkout
  success : Bool
deriving DecidableEq

/-! ## The parser (`parseWorkoutLine` and the `addWorkout` loop) -/

/-- `parseWorkoutLine(parts)` from `src/controllers/User.js` (the
line-to-entry conversion step referenced by the active `addWorkout`; its
definition appears at lines 347–360).  `.error` models a thrown
`TypeError`: `parts[2].split("sets")[1]` is `undefined` when `"sets"` does
not occur in `parts[2]`, and calling `.split` on it throws. -/
def parseWorkoutLine (parts : List Str) : Except String (Option WorkoutDetails) :=
  if parts.length ≥ 5 then
    let workoutName := jsTrim ((parts.getD 1 []).drop 1)
    let setsSplit := jsSplit ("sets".toList) (parts.getD 2 [])
    let sets := jsParseInt (jsTrim ((setsSplit.getD 0 []).drop 1))
    match setsSplit.get? 1 with
    | none => .error "TypeError"
    | some afterSets =>
      let reps := jsParseInt (jsTrim (((jsSplit ("reps".toList) afterSets).getD 0 []).drop 1))
      let weight := jsParseFloat (jsTrim (((jsSplit ("kg".toList) (parts.getD 3 [])).getD 0 []).drop 1))
      let durat := jsParseFloat (jsTrim (((jsSplit ("min".toList) (parts.getD 4 [])).getD 0 []).drop 1))
      .ok (some { workoutName := workoutName, sets := sets, reps := reps,
                  weight := weight, duration := durat })
  else .ok none

/-- What processing one trimmed segment of the workout string does. -/
inductive SegResult where
  /-- `next(400, "Workout string is missing details …")`: the segment does
  not start with `#`, or splits into fewer than 5 lines. -/
  | missing
  /-- `next(400, "Please enter proper format …")`: `parseWorkoutLine`
  returned `null`. -/
  | badFormat
  /-- A parsed entry is pushed onto `parsedWorkouts`. -/
  | entry (d : WorkoutDetails)
  /-- `parseWorkoutLine` threw; the exception propagates out of `forEach`. -/
  | thrown (e : String)
deriving DecidableEq

/-- One iteration of the `eachWorkout.forEach` body on a (trimmed) segment. -/
def segStep (seg : Str) : SegResult :=
  if startsWithPat ['#'] seg then
    let parts := (jsSplit ['\n'] seg).map jsTrim
    if parts.length < 5 then .missing
    else
      let currentCategory := jsTrim ((parts.getD 0 []).drop 1)
      match parseWorkoutLine parts with
      | .error e => .thrown e
      | .ok none => .badFormat
      | .ok (some d) => .entry { d with category := currentCategory }
  else .missing

/-- Is a segment's result a thrown exception? -/
def SegResult.isThrown : SegResult → Bool
  | .thrown _ => true
  | _ => false

/-- The `forEach` loop over the segments, with `cnt` the 1-based ordinal of
the first segment in `l`.  Returns the error trace, the parsed entries
(in order) and, if an exception was thrown, its message (processing of
later segments stops there, and earlier `next(err)` calls stand). -/
def processGo : List Str → Nat → List WError × List WorkoutDetails × Option String
  | [], _ => ([], [], none)
  | seg :: rest, cnt =>
    match segStep seg with
    | .thrown e => ([], [], some e)
    | .missing =>
      let r := processGo rest (cnt + 1)
      (WError.missingDetails cnt :: r.1, r.2.1, r.2.2)
    | .badFormat =>
      let r := processGo rest (cnt + 1)
      (WError.badFormat cnt :: r.1, r.2.1, r.2.2)
    | .entry d =>
      let r := processGo rest (cnt + 1)
      (r.1, d :: r.2.1, r.2.2)

/-- The whole segment loop of `addWorkout`, ordinals starting at 1. -/
def processSegments (segs : List Str) : List WError × List WorkoutDetails × Option String :=
  processGo segs 1

/-- `calculateCaloriesBurnt(workoutDetails)` from `src/controllers/User.js`
(lines 363–368): `parseInt(duration) * 5 * parseInt(weight)`, where the
fields hold numbers (or `NaN`, which propagates) and `parseInt` applied
to a number stringifies it first (`JsNum.parseIntNum`). -/
def calculateCaloriesBurnt (w : WorkoutDetails) : Option Int :=
  match w.duration, w.weight with
  | some d, some wt => some (d.parseIntNum * 5 * wt.parseIntNum)
  | _, _ => none

/-- Builds one document of the `workoutsToAdd` array. -/
def mkInserted (uid : Str) (d : WorkoutDetails) : InsertedWorkout :=
  { category := d.category, workoutName := d.workoutName, sets := d.sets,
    reps := d.reps, weight := d.weight, duration := d.duration,
    caloriesBurned := calculateCaloriesBurnt d, user := uid }

/-- `addWorkout(req, res, next)` from `src/controllers/User.js`
(lines 223–281), as a function of the authenticated user id and the
`workoutString` body field (`none` models an absent field; the empty
string is falsy in JavaScript, so it also hits the "missing" guard). -/
def addWorkout (userId : Option Str) (workoutString : Option Str) : AddWorkoutOutcome :=
  match userId with
  | none => ⟨[WError.unauthorized], [], false⟩
  | some uid =>
    match workoutString with
    | none => ⟨[WError.missingString], [], false⟩
    | some ws =>
      if ws.isEmpty then ⟨[WError.missingString], [], false⟩
      else
        let segs := (jsSplit [';'] ws).map jsTrim
        let r := processSegments segs
        match r.2.2 with
        | some e => ⟨r.1 ++ [WError.internalError e], [], false⟩
        | none =>
          let toAdd := r.2.1.map (mkInserted uid)
          if toAdd.isEmpty then ⟨r.1 ++ [WError.emptyInput], [], false⟩
          else ⟨r.1, toAdd, true⟩

/-- The error response the client actually receives: in Express the first
`next(err)` call wins (later ones, and a later `res.status(201)`, hit the
"headers already sent" path). -/
def surfacedError (o : AddWorkoutOutcome) : Option WError :=
  o.errors.head?

/-! ## The dashboard (`getUserDashboard`) -/

/-- A stored workout document as the dashboard queries see it: its day
index (local calendar day of its `date`) and its `caloriesBurned`. -/
structure DbWorkout where
  day : Int
  caloriesBurned : Int
  category : Str
deriving DecidableEq

/-- Total calories of the given user's workouts on day `d` (the
`$match` on `[startOfDay, endOfDay)` plus `$sum`); `0` when there are
none, because summing an empty aggregate is 0. -/
def dayTotal (store : List DbWorkout) (d : Int) : Int :=
  ((store.filter (fun w => w.day = d)).map (fun w => w.caloriesBurned)).sum

/-- The dashboard response fields the claims are about (the pie-chart data
is omitted; no claim mentions it). -/
structure DashboardOut where
  totalCaloriesBurnt : Int
  totalWorkouts : Nat
  avgCaloriesBurntPerWorkout : JsNum
  weeks : List String
  caloriesBurned : List Int
deriving DecidableEq

/-- `getUserDashboard` from `src/controllers/User.js` (lines 65–185),
over the store of this user's workouts.  `dom` abstracts
`Date.prototype.getDate` (day-of-month of a day index); `today` is the
current day index.  The aggregate for today's total returns no row at all
when the user has no workout today, which is what the
`totalCaloriesBurnt.length > 0` guards test. -/
def getUserDashboard (dom : Int → Nat) (today : Int) (store : List DbWorkout) :
    DashboardOut :=
  let todays := store.filter (fun w => w.day = today)
  let totalCal := dayTotal store today
  let totalWorkouts := todays.length
  let avg : JsNum :=
    if todays.isEmpty then ⟨0, 1⟩ else ⟨totalCal, totalWorkouts⟩
  let days := ((List.range 7).reverse).map (fun i => today - (i : Int))
  let weeks := days.map (fun d => toString (dom d) ++ "th")
  let cals := days.map (fun d => if dayTotal store d = 0 then 0 else dayTotal store d)
  { totalCaloriesBurnt := if todays.isEmpty then 0 else totalCal,
    totalWorkouts := totalWorkouts,
    avgCaloriesBurntPerWorkout := avg,
    weeks := weeks,
    caloriesBurned := cals }

/-! ## Character-class lemmas -/

/-- Two characters on which a Boolean class disagrees are distinct. -/
theorem ne_of_class (p : Char → Bool) {c d : Char} (h1 : p c = true)
    (h2 : p d = false) : c ≠ d := by
  intro he; subst he; rw [h1] at h2; exact absurd h2 (by simp)

/-- Digits are not whitespace. -/
theorem digit_not_ws {c : Char} (h : c.isDigit = true) : c.isWhitespace = false := by
  by_contra hw
  rw [Bool.not_eq_false] at hw
  simp only [Char.isWhitespace, Bool.or_eq_true, decide_eq_true_eq] at hw
  rcases hw with ((h1 | h1) | h1) | h1 <;> subst h1 <;> simp [Char.isDigit] at h

/-- Characters allowed in the numeric tokens of a workout block:
digits, the `X` separator of `setsXreps`, and the decimal point. -/
def charTok (c : Char) : Bool := c.isDigit || c = 'X' || c = '.'

/-- Token characters are not whitespace. -/
theorem charTok_not_ws {c : Char} (h : charTok c = true) : c.isWhitespace = false := by
  simp only [charTok, Bool.or_eq_true, decide_eq_true_eq] at h
  rcases h with (h | h) | h
  · exact digit_not_ws h
  · subst h; rfl
  · subst h; rfl

/-- Digits are token characters. -/
theorem digit_charTok {c : Char} (h : c.isDigit = true) : charTok c = true := by
  simp [charTok, h]

/-- A token character is not any character outside the token class
(letters, `#`, `;`, newline, sign characters…). -/
theorem charTok_ne {c d : Char} (h : charTok c = true) (hd : charTok d = false) :
    c ≠ d :=
  ne_of_class charTok h hd

/-! ## Splitting lemmas -/

theorem startsWithPat_append_self (p b : Str) : startsWithPat p (p ++ b) = true := by
  induction p with
  | nil => rfl
  | cons c cs ih => simp [startsWithPat, ih]

theorem startsWithPat_mem {p s : Str} (h : startsWithPat p s = true) :
    ∀ c ∈ p, c ∈ s := by
  induction p generalizing s with
  | nil => intro c hc; cases hc
  | cons q qs ih =>
    cases s with
    | nil => cases h
    | cons a as =>
      simp only [startsWithPat, Bool.and_eq_true, decide_eq_true_eq] at h
      intro c hc
      rcases List.mem_cons.mp hc with hc | hc
      · subst hc; rw [h.1]; exact List.mem_cons_self _ _
      · exact List.mem_cons_of_mem _ (ih h.2 c hc)

/-- If some character of the pattern does not occur in `s`, the pattern
does not occur in `s`. -/
theorem findSplit_eq_none {p s : Str} {c : Char} (hc : c ∈ p) (hs : c ∉ s) :
    findSplit p s = none := by
  induction s with
  | nil =>
    have hp : p ≠ [] := by intro h; subst h; cases hc
    cases p with
    | nil => exact absurd rfl hp
    | cons q qs => rfl
  | cons a as ih =>
    have h1 : startsWithPat p (a :: as) = false := by
      by_contra h
      rw [Bool.not_eq_false] at h
      exact hs (startsWithPat_mem h c hc)
    have h2 : c ∉ as := fun h => hs (List.mem_cons_of_mem _ h)
    simp [findSplit, h1, ih h2]

/-- `findSplit` finds the pattern at the very front. -/
theorem findSplit_self {p : Str} (hp : p ≠ []) (b : Str) :
    findSplit p (p ++ b) = some ([], b) := by
  cases p with
  | nil => exact absurd rfl hp
  | cons q qs =>
    have h1 : startsWithPat (q :: qs) (q :: (qs ++ b)) = true := by
      rw [← List.cons_append]; exact startsWithPat_append_self _ _
    rw [List.cons_append]
    simp only [findSplit, h1, if_true]
    simp only [List.length_cons, List.drop_succ_cons]
    rw [List.drop_left]

/-- `findSplit` locates the first occurrence: if no character of `a`
belongs to the pattern, the split of `a ++ p ++ b` is at `a`. -/
theorem findSplit_append {p : Str} (hp : p ≠ []) {a : Str}
    (ha : ∀ c ∈ a, c ∉ p) (b : Str) :
    findSplit p (a ++ (p ++ b)) = some (a, b) := by
  induction a with
  | nil => rw [List.nil_append]; exact findSplit_self hp b
  | cons x xs ih =>
    have hx : startsWithPat p (x :: (xs ++ (p ++ b))) = false := by
      cases p with
      | nil => exact absurd rfl hp
      | cons q qs =>
        have hqx : q ≠ x := fun h =>
          ha x (List.mem_cons_self _ _) (h ▸ List.mem_cons_self _ _)
        simp [startsWithPat, decide_eq_false hqx]
    have ih' := ih (fun c hc => ha c (List.mem_cons_of_mem _ hc))
    rw [List.cons_append]
    simp [findSplit, hx, ih']

/-- The suffix returned by `findSplit` is shorter than the input
(for a non-empty pattern). -/
theorem findSplit_length {p s b a : Str} (hp : p ≠ [])
    (h : findSplit p s = some (b, a)) : a.length < s.length := by
  have hp1 : 1 ≤ p.length := by
    cases p with
    | nil => exact absurd rfl hp
    | cons q qs => simp
  induction s generalizing b with
  | nil =>
    cases p with
    | nil => exact absurd rfl hp
    | cons q qs => simp [findSplit, startsWithPat] at h
  | cons x xs ih =>
    simp only [findSplit] at h
    split at h
    · rcases Option.some.inj h with h2
      rcases Prod.mk.injEq .. ▸ h2 with ⟨h3, h4⟩
      subst h4
      rw [List.length_drop]
      simp only [List.length_cons]
      omega
    · split at h
      · next b' a' heq =>
        rcases Option.some.inj h with h2
        rcases Prod.mk.injEq .. ▸ h2 with ⟨h3, h4⟩
        subst h4
        exact Nat.lt_trans (ih heq) (by simp)
      · exact absurd h (by simp)

/-- With enough fuel, the fuel does not matter. -/
theorem splitOnFuel_irrel {p : Str} (hp : p ≠ []) :
    ∀ f₁ f₂ s, s.length < f₁ → s.length < f₂ →
      splitOnFuel p f₁ s = splitOnFuel p f₂ s := by
  intro f₁
  induction f₁ with
  | zero => intro f₂ s h1; omega
  | succ f ih =>
    intro f₂ s h1 h2
    cases f₂ with
    | zero => omega
    | succ f' =>
      simp only [splitOnFuel]
      cases hfs : findSplit p s with
      | none => rfl
      | some r =>
        rcases r with ⟨b, a⟩
        have hlt := findSplit_length hp hfs
        simp only []
        rw [ih f' a (by omega) (by omega)]

theorem jsSplit_of_findSplit_none {p s : Str} (h : findSplit p s = none) :
    jsSplit p s = [s] := by
  simp [jsSplit, splitOnFuel, h]

/-- A pattern containing a character that `s` lacks does not split `s`. -/
theorem jsSplit_no_occ {p s : Str} {c : Char} (hc : c ∈ p) (hs : c ∉ s) :
    jsSplit p s = [s] :=
  jsSplit_of_findSplit_none (findSplit_eq_none hc hs)

/-- Splitting `a ++ p ++ b` at the explicit occurrence of the separator. -/
theorem jsSplit_append {p : Str} (hp : p ≠ []) {a : Str}
    (ha : ∀ c ∈ a, c ∉ p) (b : Str) :
    jsSplit p (a ++ (p ++ b)) = a :: jsSplit p b := by
  have hfs := findSplit_append hp ha b
  have hp1 : 1 ≤ p.length := by
    cases p with
    | nil => exact absurd rfl hp
    | cons q qs => simp
  have hlen : b.length < (a ++ (p ++ b)).length := by
    simp only [List.length_append]; omega
  simp only [jsSplit, splitOnFuel, hfs]
  exact congrArg (a :: ·)
    (splitOnFuel_irrel hp _ _ b hlen (Nat.lt_succ_self _))

theorem jsSplit_nil {p : Str} (hp : p ≠ []) : jsSplit p [] = [[]] := by
  apply jsSplit_of_findSplit_none
  cases p with
  | nil => exact absurd rfl hp
  | cons q qs => rfl

/-! ## Trim lemmas -/

theorem dropWhile_eq_self_of_all {p : Char → Bool} {s : Str}
    (h : ∀ c ∈ s, p c = false) : s.dropWhile p = s := by
  cases s with
  | nil => rfl
  | cons c t => rw [List.dropWhile_cons, h c (List.mem_cons_self _ _)]; simp

theorem jsTrim_all_nonws {s : Str} (h : ∀ c ∈ s, c.isWhitespace = false) :
    jsTrim s = s := by
  unfold jsTrim jsTrimEnd
  rw [dropWhile_eq_self_of_all h,
      dropWhile_eq_self_of_all (fun c hc => h c (List.mem_reverse.mp hc)),
      List.reverse_reverse]

/-- A string whose right-trim is itself keeps that property when anything
is prepended. -/
theorem jsTrimEnd_append {b : Str} (h : jsTrimEnd b = b) (hb : b ≠ []) (a : Str) :
    jsTrimEnd (a ++ b) = a ++ b := by
  have h1 : b.reverse.dropWhile Char.isWhitespace = b.reverse := by
    have := congrArg List.reverse h
    rwa [jsTrimEnd, List.reverse_reverse] at this
  cases hrev : b.reverse with
  | nil => exact absurd (List.reverse_eq_nil_iff.mp hrev) hb
  | cons c t =>
    have hc : c.isWhitespace = false := by
      rw [hrev, List.dropWhile_cons] at h1
      by_contra hcc
      rw [Bool.not_eq_false] at hcc
      rw [hcc, if_pos rfl] at h1
      have hle : (List.dropWhile Char.isWhitespace t).length ≤ t.length :=
        (List.dropWhile_suffix _).length_le
      have := congrArg List.length h1
      simp at this
      omega
    unfold jsTrimEnd
    rw [List.reverse_append, hrev, List.cons_append, List.dropWhile_cons, hc]
    simp only [Bool.false_eq_true, if_false]
    rw [← List.cons_append, ← hrev, ← List.reverse_append, List.reverse_reverse]

/-- `jsTrim s = s` forces both one-sided trims to fix `s`. -/
theorem jsTrim_eq_self_parts {s : Str} (h : jsTrim s = s) :
    s.dropWhile Char.isWhitespace = s ∧ jsTrimEnd s = s := by
  have hsuf : (s.dropWhile Char.isWhitespace) <:+ s := List.dropWhile_suffix _
  have hlen1 : (s.dropWhile Char.isWhitespace).length ≤ s.length := hsuf.length_le
  have hlen2 : (jsTrimEnd (s.dropWhile Char.isWhitespace)).length ≤
      (s.dropWhile Char.isWhitespace).length := by
    unfold jsTrimEnd
    calc ((s.dropWhile Char.isWhitespace).reverse.dropWhile Char.isWhitespace).reverse.length
        = ((s.dropWhile Char.isWhitespace).reverse.dropWhile Char.isWhitespace).length := by
          rw [List.length_reverse]
      _ ≤ (s.dropWhile Char.isWhitespace).reverse.length :=
          (List.dropWhile_suffix _).length_le
      _ = (s.dropWhile Char.isWhitespace).length := by rw [List.length_reverse]
  have hlen3 : (jsTrim s).length = s.length := by rw [h]
  rw [jsTrim] at hlen3
  have hd : s.dropWhile Char.isWhitespace = s :=
    hsuf.eq_of_length (by omega)
  refine ⟨hd, ?_⟩
  rw [jsTrim, hd] at h
  exact h

/-- Left-trimming a string that starts with a non-whitespace character. -/
theorem dropWhile_ws_cons {c : Char} (hc : c.isWhitespace = false) (t : Str) :
    (c :: t).dropWhile Char.isWhitespace = c :: t := by
  rw [List.dropWhile_cons, hc]; simp

/-- Prepending a non-whitespace character to a trim-invariant non-empty
string yields a trim-invariant string. -/
theorem jsTrim_cons {c : Char} {s : Str} (hc : c.isWhitespace = false)
    (hs : jsTrim s = s) (hne : s ≠ []) : jsTrim (c :: s) = c :: s := by
  rcases jsTrim_eq_self_parts hs with ⟨-, h2⟩
  rw [jsTrim, dropWhile_ws_cons hc]
  exact jsTrimEnd_append h2 hne [c]

/-! ## Joining lines and segments -/

/-- Join strings with a single-character separator (inverse of `jsSplit`
on that separator when no piece contains it). -/
def joinSep (c : Char) : List Str → Str
  | [] => []
  | [l] => l
  | l :: l2 :: rest => l ++ c :: joinSep c (l2 :: rest)

theorem jsSplit_joinSep {c : Char} {ls : List Str} (hne : ls ≠ [])
    (h : ∀ l ∈ ls, c ∉ l) : jsSplit [c] (joinSep c ls) = ls := by
  induction ls with
  | nil => exact absurd rfl hne
  | cons l rest ih =>
    cases rest with
    | nil =>
      exact jsSplit_no_occ (List.mem_cons_self c []) (h l (List.mem_cons_self _ _))
    | cons l2 rest2 =>
      have hd : ∀ ch ∈ l, ch ∉ [c] := by
        intro ch hch hmem
        rcases List.mem_singleton.mp hmem with rfl
        exact h l (List.mem_cons_self _ _) hch
      have step : joinSep c (l :: l2 :: rest2) = l ++ ([c] ++ joinSep c (l2 :: rest2)) := by
        simp [joinSep]
      rw [step, jsSplit_append (by simp) hd, ih (by simp)
        (fun x hx => h x (List.mem_cons_of_mem _ hx))]

/-! ## Numeric parsing lemmas -/

theorem takeWhile_eq_self_of_all {p : Char → Bool} {s : Str}
    (h : ∀ c ∈ s, p c = true) : s.takeWhile p = s := by
  induction s with
  | nil => rfl
  | cons c t ih =>
    rw [List.takeWhile_cons, h c (List.mem_cons_self _ _)]
    simp only [if_true]
    rw [ih (fun x hx => h x (List.mem_cons_of_mem _ hx))]

theorem readSign_of_digit {c : Char} {t : Str} (hc : c.isDigit = true) :
    readSign (c :: t) = (1, c :: t) := by
  have h1 : c ≠ '-' := ne_of_class Char.isDigit hc (by decide)
  have h2 : c ≠ '+' := ne_of_class Char.isDigit hc (by decide)
  simp [readSign, h1, h2]

/-- `parseInt` on a non-empty all-digit string is its decimal value. -/
theorem jsParseInt_digits {s : Str} (hne : s ≠ [])
    (h : ∀ c ∈ s, c.isDigit = true) : jsParseInt s = some (digitsVal s : Int) := by
  cases s with
  | nil => exact absurd rfl hne
  | cons c t =>
    have hall : ∀ x ∈ c :: t, x.isWhitespace = false :=
      fun x hx => digit_not_ws (h x hx)
    unfold jsParseInt
    rw [dropWhile_eq_self_of_all hall]
    dsimp only
    rw [readSign_of_digit (h c (List.mem_cons_self _ _))]
    dsimp only
    rw [takeWhile_eq_self_of_all h]
    simp

/-- `parseFloat` on a whitespace-free string starting with a digit
succeeds (returns a number, not `NaN`). -/
theorem jsParseFloat_isSome {c : Char} {t : Str} (hc : c.isDigit = true)
    (hnw : ∀ ch ∈ c :: t, ch.isWhitespace = false) :
    (jsParseFloat (c :: t)).isSome = true := by
  unfold jsParseFloat
  rw [dropWhile_eq_self_of_all hnw]
  dsimp only
  rw [readSign_of_digit hc]
  dsimp only
  simp only [List.takeWhile_cons, hc, if_true]
  simp

/-! ## Well-formedness predicates for block fields -/

/-- A free-text field (category or exercise name) as it can appear in a
well-formed block: non-empty, already trimmed, and free of the two
separators. -/
def fieldOk (s : Str) : Prop :=
  s ≠ [] ∧ jsTrim s = s ∧ '\n' ∉ s ∧ ';' ∉ s

instance (s : Str) : Decidable (fieldOk s) := by unfold fieldOk; infer_instance

/-- A numeric token: non-empty, made of digits, `X` and `.` only. -/
def tokStr (s : Str) : Prop := s ≠ [] ∧ ∀ c ∈ s, charTok c = true

instance (s : Str) : Decidable (tokStr s) := by unfold tokStr; infer_instance

/-- A non-empty all-digit token. -/
def digitStr (s : Str) : Prop := s ≠ [] ∧ ∀ c ∈ s, c.isDigit = true

instance (s : Str) : Decidable (digitStr s) := by unfold digitStr; infer_instance

theorem digitStr_tokStr {s : Str} (h : digitStr s) : tokStr s :=
  ⟨h.1, fun c hc => digit_charTok (h.2 c hc)⟩

/-- No character of a token string belongs to a token-free string. -/
theorem tok_disj {a p : Str} (ha : ∀ c ∈ a, charTok c = true)
    (hp : ∀ c ∈ p, charTok c = false) : ∀ c ∈ a, c ∉ p :=
  fun c hc hcp => absurd (ha c hc) (by rw [hp c hcp]; simp)

/-- A character outside the token class does not occur in a token string. -/
theorem not_mem_of_tok {s : Str} (hs : ∀ c ∈ s, charTok c = true) {d : Char}
    (hd : charTok d = false) : d ∉ s :=
  fun h => absurd (hs d h) (by rw [hd]; simp)

/-- Extends a token-string disjointness to the leading `#`. -/
theorem hash_tok_disj {S p : Str} (hS : ∀ c ∈ S, charTok c = true)
    (hp : ∀ c ∈ p, charTok c = false) (hph : '#' ∉ p) :
    ∀ c ∈ ('#' :: S), c ∉ p := by
  intro c hc
  rcases List.mem_cons.mp hc with rfl | hc
  · exact hph
  · exact tok_disj hS hp c hc

/-- Token strings contain no whitespace. -/
theorem tok_nonws {s : Str} (hs : ∀ c ∈ s, charTok c = true) :
    ∀ c ∈ s, c.isWhitespace = false :=
  fun c hc => charTok_not_ws (hs c hc)

/-! ## Evaluating the parser on an explicit five-line block -/

/-- `parseWorkoutLine` on an explicit five-element `parts` list, written
out field by field. -/
theorem parseWorkoutLine_five (a0 a1 a2 a3 a4 : Str) :
    parseWorkoutLine [a0, a1, a2, a3, a4] =
      match (jsSplit ("sets".toList) a2).get? 1 with
      | none => .error "TypeError"
      | some afterSets => .ok (some
          { workoutName := jsTrim (a1.drop 1),
            sets := jsParseInt (jsTrim (((jsSplit ("sets".toList) a2).getD 0 []).drop 1)),
            reps := jsParseInt (jsTrim (((jsSplit ("reps".toList) afterSets).getD 0 []).drop 1)),
            weight := jsParseFloat (jsTrim (((jsSplit ("kg".toList) a3).getD 0 []).drop 1)),
            duration := jsParseFloat (jsTrim (((jsSplit ("min".toList) a4).getD 0 []).drop 1)) }) :=
  rfl

/-- Joining five newline-free lines and splitting on newline gives the
lines back. -/
theorem jsSplit_block {a0 a1 a2 a3 a4 : Str}
    (h0 : '\n' ∉ a0) (h1 : '\n' ∉ a1) (h2 : '\n' ∉ a2) (h3 : '\n' ∉ a3)
    (h4 : '\n' ∉ a4) :
    jsSplit ['\n'] (joinSep '\n' [a0, a1, a2, a3, a4]) = [a0, a1, a2, a3, a4] := by
  apply jsSplit_joinSep (by simp)
  intro l hl
  simp only [List.mem_cons, List.not_mem_nil, or_false] at hl
  rcases hl with rfl | rfl | rfl | rfl | rfl <;> assumption

/-- A five-line block whose lines are trim-invariant and end in a
non-empty last line is itself trim-invariant. -/
theorem jsTrim_block {r0 a1 a2 a3 a4 : Str}
    (ht4 : jsTrim a4 = a4) (h4ne : a4 ≠ []) :
    jsTrim (joinSep '\n' [('#' :: r0), a1, a2, a3, a4]) =
      joinSep '\n' [('#' :: r0), a1, a2, a3, a4] := by
  have hshape : joinSep '\n' [('#' :: r0), a1, a2, a3, a4] =
      '#' :: (r0 ++ '\n' :: (a1 ++ '\n' :: (a2 ++ '\n' :: (a3 ++ '\n' :: a4)))) := by
    simp [joinSep]
  have hshape2 : joinSep '\n' [('#' :: r0), a1, a2, a3, a4] =
      (('#' :: r0) ++ '\n' :: (a1 ++ '\n' :: (a2 ++ '\n' :: (a3 ++ ['\n'])))) ++ a4 := by
    simp [joinSep]
  rw [hshape, jsTrim, dropWhile_ws_cons (by decide), ← hshape, hshape2]
  rw [jsTrimEnd_append (jsTrim_eq_self_parts ht4).2 h4ne]

/-- Evaluating one `forEach` iteration on a well-shaped five-line block:
only the first line is tested for `#`; the block always reaches
`parseWorkoutLine`, whose verdict decides the outcome, and the category is
the trimmed first line after dropping its first character. -/
theorem segStep_block {r0 a1 a2 a3 a4 : Str}
    (hn0 : '\n' ∉ r0) (hn1 : '\n' ∉ a1) (hn2 : '\n' ∉ a2) (hn3 : '\n' ∉ a3)
    (hn4 : '\n' ∉ a4)
    (ht0 : jsTrim ('#' :: r0) = '#' :: r0) (ht1 : jsTrim a1 = a1)
    (ht2 : jsTrim a2 = a2) (ht3 : jsTrim a3 = a3) (ht4 : jsTrim a4 = a4) :
    segStep (joinSep '\n' [('#' :: r0), a1, a2, a3, a4]) =
      (match parseWorkoutLine [('#' :: r0), a1, a2, a3, a4] with
       | .error e => SegResult.thrown e
       | .ok none => SegResult.badFormat
       | .ok (some d) => SegResult.entry { d with category := jsTrim r0 }) := by
  have hn0' : '\n' ∉ ('#' :: r0) := by
    intro h
    rcases List.mem_cons.mp h with h | h
    · cases h
    · exact hn0 h
  have hsplit := jsSplit_block hn0' hn1 hn2 hn3 hn4
  have hshape : joinSep '\n' [('#' :: r0), a1, a2, a3, a4] =
      '#' :: (r0 ++ '\n' :: (a1 ++ '\n' :: (a2 ++ '\n' :: (a3 ++ '\n' :: a4)))) := by
    simp [joinSep]
  have hstart : startsWithPat ['#'] (joinSep '\n' [('#' :: r0), a1, a2, a3, a4]) = true := by
    rw [hshape]; simp [startsWithPat]
  unfold segStep
  rw [hstart, if_pos rfl, hsplit]
  dsimp only [List.map]
  rw [ht0, ht1, ht2, ht3, ht4]
  rw [if_neg (by simp)]
  dsimp only [List.getD, List.get?]
  rfl

/-! ## Evaluating the whole submission on symbolic inputs -/

/-- A submission consisting of one segment that parses to an entry:
no errors, one insert, success. -/
theorem addWorkout_single_entry {u raw : Str} {d : WorkoutDetails}
    (hne : raw ≠ []) (hsemi : ';' ∉ raw) (htrim : jsTrim raw = raw)
    (hstep : segStep raw = SegResult.entry d) :
    addWorkout (some u) (some raw) = ⟨[], [mkInserted u d], true⟩ := by
  have hsplitsemi : jsSplit [';'] raw = [raw] :=
    jsSplit_no_occ (List.mem_cons_self _ _) hsemi
  have hproc : processSegments ((jsSplit [';'] raw).map jsTrim) = ([], [d], none) := by
    rw [hsplitsemi]
    dsimp only [List.map]
    rw [htrim]
    unfold processSegments processGo
    rw [hstep]
    rfl
  unfold addWorkout
  dsimp only
  rw [if_neg (by simp [hne])]
  rw [hproc]
  rfl

/-- In the segment loop, a segment whose (trimmed) text fails the
`#`/five-lines tests contributes its `missingDetails` error with the right
ordinal, provided no earlier segment threw. -/
theorem processGo_missing_mem {l : List Str} {k : Nat}
    (hk : k < l.length)
    (hpre : ∀ j, j < k → (segStep (l.getD j [])).isThrown = false)
    (hmiss : segStep (l.getD k []) = SegResult.missing) :
    ∀ cnt, WError.missingDetails (cnt + k) ∈ (processGo l cnt).1 := by
  induction l generalizing k with
  | nil => simp at hk
  | cons s rest ih =>
    intro cnt
    cases k with
    | zero =>
      have hs : segStep s = SegResult.missing := by simpa using hmiss
      unfold processGo
      rw [hs]
      simp
    | succ k' =>
      have h0 : (segStep s).isThrown = false := by simpa using hpre 0 (Nat.succ_pos _)
      have hk' : k' < rest.length := by simpa using hk
      have hpre' : ∀ j, j < k' → (segStep (rest.getD j [])).isThrown = false := by
        intro j hj
        simpa using hpre (j + 1) (by omega)
      have hmiss' : segStep (rest.getD k' []) = SegResult.missing := by
        simpa using hmiss
      have hmem := ih hk' hpre' hmiss' (cnt + 1)
      have hshift : cnt + (k' + 1) = (cnt + 1) + k' := by omega
      unfold processGo
      cases hss : segStep s with
      | thrown e => rw [hss] at h0; simp [SegResult.isThrown] at h0
      | missing =>
        dsimp only
        rw [hshift]
        exact List.mem_cons_of_mem _ hmem
      | badFormat =>
        dsimp only
        rw [hshift]
        exact List.mem_cons_of_mem _ hmem
      | entry d =>
        dsimp only
        rw [hshift]
        exact hmem

/-- Lifting `processGo_missing_mem` through `addWorkout`: a segment of the
raw string that fails the `#`/five-lines tests is reported as missing
details at its 1-based ordinal among all segments. -/
theorem addWorkout_missing_mem {u : Str} {segs : List Str} {k : Nat}
    (hsemi : ∀ s ∈ segs, ';' ∉ s)
    (hne : joinSep ';' segs ≠ [])
    (hk : k < segs.length)
    (hpre : ∀ j, j < k → (segStep (jsTrim (segs.getD j []))).isThrown = false)
    (hmiss : segStep (jsTrim (segs.getD k [])) = SegResult.missing) :
    WError.missingDetails (k + 1) ∈
      (addWorkout (some u) (some (joinSep ';' segs))).errors := by
  have hsegsne : segs ≠ [] := by
    intro h; subst h; simp at hk
  have hsplit : jsSplit [';'] (joinSep ';' segs) = segs :=
    jsSplit_joinSep hsegsne hsemi
  have hk2 : k < (segs.map jsTrim).length := by simpa using hk
  have hgetD : ∀ j, (segs.map jsTrim).getD j [] = jsTrim (segs.getD j []) := by
    intro j
    rcases Nat.lt_or_ge j segs.length with hj | hj
    · rw [List.getD_eq_getElem _ _ (by simpa using hj), List.getD_eq_getElem _ _ hj]
      simp
    · rw [List.getD_eq_default _ _ (by simpa using hj), List.getD_eq_default _ _ hj]
      rfl
  have hmem : WError.missingDetails (k + 1) ∈
      (processSegments (segs.map jsTrim)).1 := by
    have := processGo_missing_mem (l := segs.map jsTrim) (k := k) hk2
      (fun j hj => by rw [hgetD]; exact hpre j hj) (by rw [hgetD]; exact hmiss) 1
    simpa [Nat.add_comm] using this
  unfold addWorkout
  dsimp only
  rw [if_neg (by simp [hne])]
  rw [hsplit]
  cases h22 : (processSegments (segs.map jsTrim)).2.2 with
  | some e =>
    dsimp only
    exact List.mem_append_left _ hmem
  | none =>
    dsimp only
    split
    · exact List.mem_append_left _ hmem
    · exact hmem

/-! ## Truncation toward zero (specification side) -/

/-- The specification's rule "truncate toward zero to an integer",
written with the mathematical floor and ceiling. -/
def truncTowardZero (q : ℚ) : Int := if 0 ≤ q then ⌊q⌋ else ⌈q⌉

/-- The helper `JsNum.truncToInt` agrees with the specification's
truncation toward zero on every number with a positive denominator. -/
theorem truncToInt_eq_truncTowardZero (x : JsNum) (hden : 0 < x.den) :
    x.truncToInt = truncTowardZero x.toRat := by
  rcases x with ⟨num, den⟩
  simp only [JsNum.truncToInt, JsNum.toRat] at *
  have hd : (0:ℚ) < (den:ℚ) := by exact_mod_cast hden
  by_cases hn : 0 ≤ num
  · rw [if_pos hn]
    have hq : (0:ℚ) ≤ (num:ℚ) / (den:ℚ) :=
      div_nonneg (by exact_mod_cast hn) (le_of_lt hd)
    rw [truncTowardZero, if_pos hq, Rat.floor_intCast_div_natCast,
        Int.ofNat_tdiv, Int.toNat_of_nonneg hn,
        Int.tdiv_eq_ediv hn (Int.natCast_nonneg den)]
  · rw [if_neg hn]
    push_neg at hn
    have hq : (num:ℚ) / (den:ℚ) < 0 :=
      div_neg_of_neg_of_pos (by exact_mod_cast hn) hd
    rw [truncTowardZero, if_neg (not_le.mpr hq)]
    have hceil : (⌈(num:ℚ) / (den:ℚ)⌉ : Int) = -⌊(((-num : Int)) : ℚ) / (den:ℚ)⌋ := by
      rw [← neg_neg (⌈(num:ℚ) / (den:ℚ)⌉)]
      congr 1
      rw [← Int.floor_neg]
      congr 1
      push_cast
      ring
    rw [hceil, Rat.floor_intCast_div_natCast, Int.ofNat_tdiv,
        Int.toNat_of_nonneg (by omega),
        Int.tdiv_eq_ediv (by omega) (Int.natCast_nonneg den)]

/-- On the decimal-notation range, `parseInt`-of-a-number is plain
truncation toward zero: the decimal rendering has no exponent, so the
digit prefix is exactly the integer part. -/
theorem parseIntNum_eq_truncToInt (x : JsNum) (hx : x.inDecimalRange) :
    x.parseIntNum = x.truncToInt := by
  rcases x with ⟨num, den⟩
  by_cases hz : num.natAbs = 0
  · have h0 : num = 0 := Int.natAbs_eq_zero.mp hz
    subst h0
    simp [JsNum.parseIntNum, JsNum.truncToInt]
  · have hrange : den ≤ num.natAbs * 10 ^ 6 ∧ num.natAbs < 10 ^ 21 * den := by
      cases hx with
      | inl h => exact absurd (Int.natAbs_eq_zero.mpr h) hz
      | inr h => exact h
    unfold JsNum.parseIntNum JsNum.truncToInt
    dsimp only
    rw [if_neg hz, if_pos hrange]
    by_cases hn : 0 ≤ num
    · rw [if_neg (by omega), if_pos hn, one_mul]
      have harg : num.natAbs = num.toNat := by omega
      rw [harg]
    · rw [if_pos (by omega), if_neg hn]
      have harg : num.natAbs = (-num).toNat := by omega
      rw [harg, neg_one_mul]

/-- Combining the two: on the decimal-notation range, the faithful
`parseInt`-of-a-number equals the specification's truncation toward
zero of the mathematical value. -/
theorem parseIntNum_eq_truncTowardZero (x : JsNum) (hx : x.inDecimalRange)
    (hden : 0 < x.den) : x.parseIntNum = truncTowardZero x.toRat :=
  (parseIntNum_eq_truncToInt x hx).trans (truncToInt_eq_truncTowardZero x hden)

/-! ## Concrete inputs used by the claims -/

set_option maxRecDepth 100000

/-- A user id for concrete evaluations. -/
def sampleUser : Str := "u".toList

/-- Five semicolon-separated blocks, the third of which ("oops") is
malformed (no `#` marker). -/
def fiveBlocksThirdBad : Str :=
  ("#A\n#a\n#1setsX2reps\n#3kg\n#4min;#B\n#b\n#1setsX2reps\n#3kg\n#4min;oops;" ++
   "#D\n#d\n#1setsX2reps\n#3kg\n#4min;#E\n#e\n#1setsX2reps\n#3kg\n#4min").toList

/-- A five-line block whose numeric fields are unparseable garbage. -/
def nanBlock : Str := "#Cardio\n#Run\n#XsetsYreps\n#aakg\n#bbmin".toList

/-- One well-formed block followed by a trailing `;`. -/
def blockThenSemi : Str := "#A\n#a\n#1setsX2reps\n#3kg\n#4min;".toList

/-- A block in the specification's format `#C\n#N\n#SsetsRreps\n#Wkg\n#Dmin`
with sets 3, reps 12, weight 50, duration 30. -/
def specFormatBlock : Str := "#Cat\n#Name\n#3sets12reps\n#50kg\n#30min".toList

/-! ## Claim C1 -/

/-- C1: the claim says a submission with a malformed block persists zero
entries.  The code violates this: on five blocks with the third malformed,
the 400 error for block 3 is signalled, but the `return` inside `forEach`
does not abort the handler, so the four entries that did parse are still
passed to `insertMany` and the 201 path is reached.  (The claim is right
about the specification's intent — buffer, then commit once — and the code
is a slip; this theorem documents the divergence at the failing input.) -/
theorem c1_partial_insert_on_malformed_third_block :
    (addWorkout (some sampleUser) (some fiveBlocksThirdBad)).errors =
      [WError.missingDetails 3] ∧
    (addWorkout (some sampleUser) (some fiveBlocksThirdBad)).inserted.length = 4 ∧
    (addWorkout (some sampleUser) (some fiveBlocksThirdBad)).success = true := by
  decide

/-! ## Claim C6 -/

/-- C6: the claim says a block whose numeric fields do not parse to finite
numbers fails with a `MalformedBlock` error.  The code violates this:
`parseWorkoutLine` returns a (truthy) object whenever the block has at
least five lines, so the `"Please enter proper format"` guard is
unreachable and an entry whose `sets`, `reps`, `weight`, `duration` and
`caloriesBurned` are all `NaN` (here `none`) is inserted with a success
response. -/
theorem c6_nan_fields_inserted_without_error :
    addWorkout (some sampleUser) (some nanBlock) =
      ⟨[], [{ category := "Cardio".toList, workoutName := "Run".toList,
              sets := none, reps := none, weight := none, duration := none,
              caloriesBurned := none, user := sampleUser }], true⟩ := by
  decide

/-! ## Claim C8 -/

/-- C8 counterexample: the claim says the empty raw string fails with the
`EmptyInput` error ("no valid workouts found").  It does not: `""` is
falsy, so the `!workoutString` guard fires first and the request fails
with the `missingString` error; `EmptyInput` is never signalled. -/
theorem c8_counterexample_empty_string_error :
    surfacedError (addWorkout (some sampleUser) (some ("".toList))) =
      some WError.missingString ∧
    WError.missingString ≠ WError.emptyInput ∧
    WError.emptyInput ∉ (addWorkout (some sampleUser) (some ("".toList))).errors := by
  decide

/-- C8 amended: the empty raw string fails with the missing-workout-string
error (the falsy-body guard, before any parsing); `";;;"` signals a
missing-details (MalformedBlock) error for each of its four empty segments
and then the `EmptyInput` error.  Neither input persists anything and
neither is an empty success. -/
theorem c8_amended_empty_inputs :
    addWorkout (some sampleUser) (some ("".toList)) =
      ⟨[WError.missingString], [], false⟩ ∧
    addWorkout (some sampleUser) (some (";;;".toList)) =
      ⟨[WError.missingDetails 1, WError.missingDetails 2, WError.missingDetails 3,
        WError.missingDetails 4, WError.emptyInput], [], false⟩ := by
  decide

/-! ## Claim C9 (counterexample) -/

/-- C9 counterexample: the claim says empty segments are skipped, so a
well-formed block with a trailing `;` parses cleanly.  It does not: the
loop body tests every segment, the empty trailing segment fails the `#`
test and is reported as "missing details for the 2nd workout", while the
block's entry is still inserted. -/
theorem c9_counterexample_trailing_semicolon :
    (addWorkout (some sampleUser) (some blockThenSemi)).errors =
      [WError.missingDetails 2] ∧
    (addWorkout (some sampleUser) (some blockThenSemi)).errors ≠ [] ∧
    (addWorkout (some sampleUser) (some blockThenSemi)).inserted.length = 1 := by
  decide

/-! ## Claim C3 (counterexample) -/

/-- C3 counterexample: on the specification's block format
`#Cat\n#Name\n#3sets12reps\n#50kg\n#30min` the parser yields `reps = 2`,
not `12`: the reps extraction applies `substring(1)` to the text between
`"sets"` and `"reps"`, dropping the first character of the reps count
(the format the code expects has a filler character there, as in
`3setsX12reps`).  The other fields do come out as the claim says. -/
theorem c3_counterexample_reps_first_char_dropped :
    (addWorkout (some sampleUser) (some specFormatBlock)).inserted.map
        (fun w => w.reps) = [some 2] ∧
    some (2 : Int) ≠ some (12 : Int) ∧
    (addWorkout (some sampleUser) (some specFormatBlock)).inserted.map
        (fun w => w.sets) = [some 3] ∧
    (addWorkout (some sampleUser) (some specFormatBlock)).inserted.map
        (fun w => w.weight) = [some ⟨50, 1⟩] ∧
    (addWorkout (some sampleUser) (some specFormatBlock)).inserted.map
        (fun w => w.duration) = [some ⟨30, 1⟩] := by
  decide

/-! ## Claim C4 (counterexample) -/

/-- C4 counterexample: the claim says each weekly label is the day-of-month
number as text (e.g. `"5"`).  The code appends a literal `"th"` to every
label (`` `${date.getDate()}th` ``), so a day-of-month of 5 is labelled
`"5th"`, not `"5"`. -/
theorem c4_counterexample_label_suffix :
    (getUserDashboard (fun _ => 5) 0 []).weeks.getD 6 "" = "5th" ∧
    (getUserDashboard (fun _ => 5) 0 []).weeks.getD 6 "" ≠ "5" := by
  decide

/-! ## Claim C2 -/

/-- Concrete details record used in the C2 example conjuncts. -/
def mkEstimateInput (w d : JsNum) : WorkoutDetails :=
  { workoutName := [], sets := none, reps := none,
    weight := some w, duration := some d, category := [] }

/-- C2 counterexample: the claim quantifies over ALL finite numeric
inputs, but `parseInt` stringifies its argument first, and a number
outside the decimal-notation range renders in exponential notation:
a weight of `0.0000005` stringifies to `"5e-7"`, so `parseInt` returns
5, not the truncation 0.  With duration 10 the program computes
`10 * 5 * 5 = 250` where the claim's formula gives `10 * 5 * 0 = 0`. -/
theorem c2_counterexample_exponential_weight :
    calculateCaloriesBurnt (mkEstimateInput ⟨5, 10000000⟩ ⟨10, 1⟩) = some 250 ∧
    truncTowardZero (JsNum.toRat ⟨10, 1⟩) * 5 *
      truncTowardZero (JsNum.toRat ⟨5, 10000000⟩) = 0 ∧
    (250 : Int) ≠ 0 := by
  refine ⟨by decide, ?_, by decide⟩
  have h10 : truncTowardZero (JsNum.toRat ⟨10, 1⟩) = 10 := by
    rw [truncTowardZero, if_pos (by norm_num [JsNum.toRat]), JsNum.toRat,
        Rat.floor_intCast_div_natCast]
    decide
  have h5 : truncTowardZero (JsNum.toRat ⟨5, 10000000⟩) = 0 := by
    rw [truncTowardZero, if_pos (by norm_num [JsNum.toRat]), JsNum.toRat,
        Rat.floor_intCast_div_natCast]
    decide
  rw [h10, h5]
  decide

/-- C2 amended: for numeric inputs in JavaScript's decimal-notation
range (zero, or magnitude in `[1e-6, 1e21)`), the calorie estimate is
`trunc(durationMin) * 5 * trunc(weightKg)` with both inputs truncated
toward zero — no rounding, no clamping, negative inputs propagate.
(Outside that range `toString` renders exponential notation and
`parseInt` returns the sign times the leading mantissa digit instead.)
Concretely, weight `72.9` and duration `30.7` give `30 * 5 * 72 = 10800`,
and weight `60` with duration `-2.5` gives `-2 * 5 * 60 = -600`. -/
theorem c2_amended_calorie_estimate :
    (∀ (nm cat : Str) (s r : Option Int) (w d : JsNum),
      0 < w.den → 0 < d.den → w.inDecimalRange → d.inDecimalRange →
      calculateCaloriesBurnt
          { workoutName := nm, sets := s, reps := r,
            weight := some w, duration := some d, category := cat } =
        some (truncTowardZero d.toRat * 5 * truncTowardZero w.toRat)) ∧
    calculateCaloriesBurnt (mkEstimateInput ⟨729, 10⟩ ⟨307, 10⟩) = some 10800 ∧
    calculateCaloriesBurnt (mkEstimateInput ⟨60, 1⟩ ⟨-25, 10⟩) = some (-600) := by
  refine ⟨?_, by decide, by decide⟩
  intro nm cat s r w d hw hd hwr hdr
  unfold calculateCaloriesBurnt
  dsimp only
  rw [parseIntNum_eq_truncTowardZero w hwr hw, parseIntNum_eq_truncTowardZero d hdr hd]

/-- C2 witness: the general conjunct applied at weight `72.9`, duration
`30.7` (both with positive denominators, both in the decimal range). -/
theorem c2_amended_witness :
    (0 < (JsNum.mk 729 10).den ∧ 0 < (JsNum.mk 307 10).den ∧
      (JsNum.mk 729 10).inDecimalRange ∧ (JsNum.mk 307 10).inDecimalRange) ∧
    calculateCaloriesBurnt
        { workoutName := [], sets := none, reps := none,
          weight := some ⟨729, 10⟩, duration := some ⟨307, 10⟩, category := [] } =
      some (truncTowardZero (JsNum.toRat ⟨307, 10⟩) * 5 *
        truncTowardZero (JsNum.toRat ⟨729, 10⟩)) :=
  ⟨⟨by decide, by decide, by decide, by decide⟩,
   c2_amended_calorie_estimate.1 [] [] none none ⟨729, 10⟩ ⟨307, 10⟩
     (by decide) (by decide) (by decide) (by decide)⟩

/-! ## Claim C5 -/

/-- C5: the average is total calories today over the number of today's
workouts when there are any, `0` when there are none; whenever the
division branch is taken the divisor is non-zero.  (In the code the branch
condition is "the sum aggregate returned a row", which holds exactly when
today's filtered set is non-empty, i.e. exactly when the count is
positive — the two queries address the same store.) -/
theorem c5_avg_calories_guarded (dom : Int → Nat) (today : Int)
    (store : List DbWorkout) :
    (store.filter (fun w => w.day = today) = [] →
      (getUserDashboard dom today store).avgCaloriesBurntPerWorkout.toRat = 0) ∧
    (store.filter (fun w => w.day = today) ≠ [] →
      (getUserDashboard dom today store).totalWorkouts ≠ 0 ∧
      (getUserDashboard dom today store).avgCaloriesBurntPerWorkout.toRat =
        ((getUserDashboard dom today store).totalCaloriesBurnt : ℚ) /
          ((getUserDashboard dom today store).totalWorkouts : ℚ)) := by
  unfold getUserDashboard
  dsimp only
  constructor
  · intro hempt
    rw [if_pos (by simp [hempt])]
    simp [JsNum.toRat]
  · intro hne
    have hemp : (store.filter (fun w => w.day = today)).isEmpty = false := by
      simp [hne]
    rw [hemp]
    simp only [Bool.false_eq_true, if_false]
    refine ⟨by simp [hne], ?_⟩
    rfl

/-- Two workouts of 300 and 200 calories stored for day 0. -/
def storeTwoToday : List DbWorkout :=
  [⟨0, 300, "a".toList⟩, ⟨0, 200, "b".toList⟩]

/-- C5 witness: with 500 calories across 2 workouts today the branch is
taken, the divisor is 2 and the average value is 250. -/
theorem c5_avg_calories_witness :
    storeTwoToday.filter (fun w => w.day = 0) ≠ [] ∧
    ((getUserDashboard (fun _ => 5) 0 storeTwoToday).totalWorkouts ≠ 0 ∧
      (getUserDashboard (fun _ => 5) 0 storeTwoToday).avgCaloriesBurntPerWorkout.toRat =
        ((getUserDashboard (fun _ => 5) 0 storeTwoToday).totalCaloriesBurnt : ℚ) /
          ((getUserDashboard (fun _ => 5) 0 storeTwoToday).totalWorkouts : ℚ)) ∧
    (getUserDashboard (fun _ => 5) 0 storeTwoToday).avgCaloriesBurntPerWorkout =
      ⟨500, 2⟩ ∧
    (JsNum.mk 500 2).toRat = 250 :=
  ⟨by decide,
   (c5_avg_calories_guarded (fun _ => 5) 0 storeTwoToday).2 (by decide),
   by decide,
   by norm_num [JsNum.toRat]⟩

/-! ## Claim C7 -/

/-- The loop body reports "missing details" exactly when the trimmed
segment fails the `#` test or splits into fewer than five lines. -/
theorem segStep_missing_of {t : Str}
    (h : startsWithPat ['#'] t = false ∨ (jsSplit ['\n'] t).length < 5) :
    segStep t = SegResult.missing := by
  unfold segStep
  rcases h with h | h
  · rw [h]
    simp
  · by_cases hs : startsWithPat ['#'] t = true
    · rw [hs, if_pos rfl, if_pos (by simpa using h)]
    · rw [if_neg (by simpa using hs)]

/-- C7: a trimmed segment that does not begin with `#`, or splits into
fewer than five lines, is reported with the missing-details
(MalformedBlock) error at its 1-based ordinal among ALL semicolon
segments — the counter increments for every segment, including ones later
rejected — and the submission therefore signals an error.  (Hypotheses:
the raw string is non-empty, the segments are the semicolon split, and no
earlier segment throws the `parseWorkoutLine` TypeError, which would abort
the loop first.) -/
theorem c7_malformed_segment_ordinal (u : Str) (segs : List Str) (k : Nat)
    (hsemi : ∀ s ∈ segs, ';' ∉ s)
    (hne : joinSep ';' segs ≠ [])
    (hk : k < segs.length)
    (hpre : ∀ j, j < k → (segStep (jsTrim (segs.getD j []))).isThrown = false)
    (hbad : startsWithPat ['#'] (jsTrim (segs.getD k [])) = false ∨
            (jsSplit ['\n'] (jsTrim (segs.getD k []))).length < 5) :
    WError.missingDetails (k + 1) ∈
      (addWorkout (some u) (some (joinSep ';' segs))).errors ∧
    (addWorkout (some u) (some (joinSep ';' segs))).errors ≠ [] := by
  have hmem := addWorkout_missing_mem (u := u) hsemi hne hk hpre
    (segStep_missing_of hbad)
  exact ⟨hmem, List.ne_nil_of_mem hmem⟩

/-- C7 witness: a good block followed by a block of only four lines; the
four-line block at position 2 is reported with ordinal 2. -/
theorem c7_malformed_segment_ordinal_witness :
    ((∀ s ∈ ["#A\n#a\n#1setsX2reps\n#3kg\n#4min".toList, "#B\n#b\n#1setsX2reps\n#3kg".toList],
        ';' ∉ s) ∧
      joinSep ';' ["#A\n#a\n#1setsX2reps\n#3kg\n#4min".toList,
        "#B\n#b\n#1setsX2reps\n#3kg".toList] ≠ [] ∧
      1 < (["#A\n#a\n#1setsX2reps\n#3kg\n#4min".toList,
        "#B\n#b\n#1setsX2reps\n#3kg".toList] : List Str).length) ∧
    (WError.missingDetails 2 ∈
      (addWorkout (some sampleUser) (some (joinSep ';'
        ["#A\n#a\n#1setsX2reps\n#3kg\n#4min".toList,
         "#B\n#b\n#1setsX2reps\n#3kg".toList]))).errors ∧
     (addWorkout (some sampleUser) (some (joinSep ';'
        ["#A\n#a\n#1setsX2reps\n#3kg\n#4min".toList,
         "#B\n#b\n#1setsX2reps\n#3kg".toList]))).errors ≠ []) :=
  ⟨⟨by decide, by decide, by decide⟩,
   c7_malformed_segment_ordinal sampleUser _ 1 (by decide) (by decide) (by decide)
     (by intro j hj; interval_cases j; decide) (by decide)⟩

/-! ## Claim C9 (amended) -/

/-- C9 amended: an empty trimmed segment is NOT skipped — it is reported
as a malformed ("missing details") block at its 1-based ordinal among all
semicolon segments.  (Same provisos as C7: non-empty raw string, no
earlier segment throws.) -/
theorem c9_amended_empty_segment_reported (u : Str) (segs : List Str) (k : Nat)
    (hsemi : ∀ s ∈ segs, ';' ∉ s)
    (hne : joinSep ';' segs ≠ [])
    (hk : k < segs.length)
    (hpre : ∀ j, j < k → (segStep (jsTrim (segs.getD j []))).isThrown = false)
    (hempty : jsTrim (segs.getD k []) = []) :
    WError.missingDetails (k + 1) ∈
      (addWorkout (some u) (some (joinSep ';' segs))).errors := by
  apply addWorkout_missing_mem hsemi hne hk hpre
  rw [hempty]
  rfl

/-- C9 witness: a well-formed block with a trailing `;` (so the second
segment is empty): the empty segment is reported at ordinal 2. -/
theorem c9_amended_witness :
    (jsTrim ((["#A\n#a\n#1setsX2reps\n#3kg\n#4min".toList, "".toList] : List Str).getD 1 [])
        = [] ∧
      1 < (["#A\n#a\n#1setsX2reps\n#3kg\n#4min".toList, "".toList] : List Str).length) ∧
    WError.missingDetails 2 ∈
      (addWorkout (some sampleUser) (some (joinSep ';'
        ["#A\n#a\n#1setsX2reps\n#3kg\n#4min".toList, "".toList]))).errors :=
  ⟨⟨by decide, by decide⟩,
   c9_amended_empty_segment_reported sampleUser _ 1 (by decide) (by decide) (by decide)
     (by intro j hj; interval_cases j; decide) (by decide)⟩

/-! ## Claim C4 (amended) -/

/-- C4 amended: the weekly series always has exactly 7 per-day buckets,
oldest first, covering the 7 local calendar days ending today inclusive
(`today − 6 … today`); each bucket's value is that day's total calories
(0 when the day has no entries), and each bucket's label is the
day-of-month number as text FOLLOWED BY a literal `"th"` suffix
(e.g. `"5th"`, not `"5"`). -/
theorem c4_amended_weekly_series (dom : Int → Nat) (today : Int)
    (store : List DbWorkout) :
    (getUserDashboard dom today store).weeks =
      (List.range 7).map (fun j => toString (dom (today - 6 + (j : Int))) ++ "th") ∧
    (getUserDashboard dom today store).caloriesBurned =
      (List.range 7).map (fun j => dayTotal store (today - 6 + (j : Int))) ∧
    (getUserDashboard dom today store).weeks.length = 7 ∧
    (getUserDashboard dom today store).caloriesBurned.length = 7 := by
  have hif : ∀ t : Int, (if t = 0 then (0 : Int) else t) = t := by
    intro t; split <;> omega
  have hrev : (List.range 7).reverse = [6, 5, 4, 3, 2, 1, 0] := by decide
  have hr7 : List.range 7 = [0, 1, 2, 3, 4, 5, 6] := by decide
  unfold getUserDashboard
  dsimp only
  rw [hrev, hr7]
  dsimp only [List.map]
  rw [hif, hif, hif, hif, hif, hif, hif]
  refine ⟨?_, ?_, by simp, by simp⟩
  · simp only [List.cons.injEq, and_true]
    refine ⟨?_, ?_, ?_, ?_, ?_, ?_, ?_⟩ <;> (congr 3; omega)
  · simp only [List.cons.injEq, and_true]
    refine ⟨?_, ?_, ?_, ?_, ?_, ?_, ?_⟩ <;> (congr 1; omega)

/-! ## Claim C3 (amended) -/

/-- A character distinct from the separator that avoids every line also
avoids the joined string. -/
theorem not_mem_joinSep {c sep : Char} {ls : List Str} (hcs : c ≠ sep)
    (h : ∀ l ∈ ls, c ∉ l) : c ∉ joinSep sep ls := by
  induction ls with
  | nil => simp [joinSep]
  | cons l rest ih =>
    cases rest with
    | nil => exact h l (List.mem_cons_self _ _)
    | cons l2 rest2 =>
      intro hm
      rw [show joinSep sep (l :: l2 :: rest2) = l ++ sep :: joinSep sep (l2 :: rest2)
        from by simp [joinSep]] at hm
      rcases List.mem_append.mp hm with hm | hm
      · exact h l (List.mem_cons_self _ _) hm
      · rcases List.mem_cons.mp hm with hm | hm
        · exact hcs hm
        · exact ih (fun x hx => h x (List.mem_cons_of_mem _ hx)) hm

/-- The block `#C\n#N\n#SsetsRreps\n#Wkg\n#Dmin`. -/
def mkWfBlock (C N S R W D : Str) : Str :=
  joinSep '\n' [('#' :: C), ('#' :: N),
    ('#' :: (S ++ ("sets".toList ++ (R ++ "reps".toList)))),
    ('#' :: (W ++ "kg".toList)), ('#' :: (D ++ "min".toList))]

/-- C3 amended: every well-formed block `#C\n#N\n#SsetsRreps\n#Wkg\n#Dmin`
(category and name non-empty, trimmed, separator-free; `S`, `R` digit
strings; `W`, `D` numeric tokens starting with a digit) parses to exactly
one entry, with no error and a success response: `category = C`,
`name = N`, `sets` = the decimal value of `S`, `weightKg = parseFloat(W)`
and `durationMin = parseFloat(D)` (both of which succeed, i.e. are
finite) — but `reps` is `parseInt` of `R` with its FIRST CHARACTER
DROPPED (`NaN` when `R` is a single digit): the code expects a
one-character filler such as `X` between `sets` and the reps count. -/
theorem c3_amended_wellformed_block (u C N S R W D : Str)
    (hC : fieldOk C) (hN : fieldOk N) (hS : digitStr S) (hR : digitStr R)
    (hW : tokStr W) (hWd : (W.headD ' ').isDigit = true)
    (hD : tokStr D) (hDd : (D.headD ' ').isDigit = true) :
    addWorkout (some u) (some (mkWfBlock C N S R W D)) =
      ⟨[], [mkInserted u
        { workoutName := N, sets := some (digitsVal S : Int),
          reps := jsParseInt (R.drop 1), weight := jsParseFloat W,
          duration := jsParseFloat D, category := C }], true⟩ ∧
    (jsParseFloat W).isSome = true ∧ (jsParseFloat D).isSome = true := by
  have hWsome : (jsParseFloat W).isSome = true := by
    cases W with
    | nil => exact absurd rfl hW.1
    | cons w wt =>
      exact jsParseFloat_isSome (by simpa using hWd) (tok_nonws hW.2)
  have hDsome : (jsParseFloat D).isSome = true := by
    cases D with
    | nil => exact absurd rfl hD.1
    | cons d0 dt =>
      exact jsParseFloat_isSome (by simpa using hDd) (tok_nonws hD.2)
  refine ⟨?_, hWsome, hDsome⟩
  have hStok := digitStr_tokStr hS
  have hRtok := digitStr_tokStr hR
  have hsetsnw : ∀ c ∈ ("sets".toList), c.isWhitespace = false := by decide
  have hrepsnw : ∀ c ∈ ("reps".toList), c.isWhitespace = false := by decide
  have hkgnw : ∀ c ∈ ("kg".toList), c.isWhitespace = false := by decide
  have hminnw : ∀ c ∈ ("min".toList), c.isWhitespace = false := by decide
  -- non-whitespace facts for the three numeric lines
  have h2nw : ∀ c ∈ ('#' :: (S ++ ("sets".toList ++ (R ++ "reps".toList)))),
      c.isWhitespace = false := by
    intro c hc
    rcases List.mem_cons.mp hc with rfl | hc
    · decide
    rcases List.mem_append.mp hc with hc | hc
    · exact tok_nonws hStok.2 c hc
    rcases List.mem_append.mp hc with hc | hc
    · exact hsetsnw c hc
    rcases List.mem_append.mp hc with hc | hc
    · exact tok_nonws hRtok.2 c hc
    · exact hrepsnw c hc
  have h3nw : ∀ c ∈ ('#' :: (W ++ "kg".toList)), c.isWhitespace = false := by
    intro c hc
    rcases List.mem_cons.mp hc with rfl | hc
    · decide
    rcases List.mem_append.mp hc with hc | hc
    · exact tok_nonws hW.2 c hc
    · exact hkgnw c hc
  have h4nw : ∀ c ∈ ('#' :: (D ++ "min".toList)), c.isWhitespace = false := by
    intro c hc
    rcases List.mem_cons.mp hc with rfl | hc
    · decide
    rcases List.mem_append.mp hc with hc | hc
    · exact tok_nonws hD.2 c hc
    · exact hminnw c hc
  -- trims of the five lines
  have ht0 : jsTrim ('#' :: C) = '#' :: C := jsTrim_cons (by decide) hC.2.1 hC.1
  have ht1 : jsTrim ('#' :: N) = '#' :: N := jsTrim_cons (by decide) hN.2.1 hN.1
  have ht2 := jsTrim_all_nonws h2nw
  have ht3 := jsTrim_all_nonws h3nw
  have ht4 := jsTrim_all_nonws h4nw
  -- newline-freeness of the lines' tails
  have hn0 : '\n' ∉ C := hC.2.2.1
  have hn1 : '\n' ∉ N := hN.2.2.1
  have hn2 : '\n' ∉ (S ++ ("sets".toList ++ (R ++ "reps".toList))) := fun h =>
    absurd (h2nw '\n' (List.mem_cons_of_mem _ h)) (by decide)
  have hn3 : '\n' ∉ (W ++ "kg".toList) := fun h =>
    absurd (h3nw '\n' (List.mem_cons_of_mem _ h)) (by decide)
  have hn4 : '\n' ∉ (D ++ "min".toList) := fun h =>
    absurd (h4nw '\n' (List.mem_cons_of_mem _ h)) (by decide)
  -- the splits inside parseWorkoutLine
  have hsplit2 : jsSplit ("sets".toList)
      ('#' :: (S ++ ("sets".toList ++ (R ++ "reps".toList)))) =
      ('#' :: S) :: jsSplit ("sets".toList) (R ++ "reps".toList) :=
    jsSplit_append (by decide)
      (hash_tok_disj hStok.2 (by decide) (by decide)) _
  have hsplit2b : jsSplit ("sets".toList) (R ++ "reps".toList) =
      [R ++ "reps".toList] := by
    apply jsSplit_no_occ (c := 't') (by decide)
    intro h
    rcases List.mem_append.mp h with h | h
    · exact absurd (hRtok.2 't' h) (by decide)
    · exact absurd h (by decide)
  have hsplitR : jsSplit ("reps".toList) (R ++ "reps".toList) = [R, []] := by
    rw [show R ++ "reps".toList = R ++ ("reps".toList ++ []) from by simp]
    rw [jsSplit_append (by decide) (tok_disj hRtok.2 (by decide)) []]
    rw [jsSplit_nil (by decide)]
  have hsplit3 : jsSplit ("kg".toList) ('#' :: (W ++ "kg".toList)) =
      [('#' :: W), []] := by
    rw [show ('#' :: (W ++ "kg".toList) : Str) = ('#' :: W) ++ ("kg".toList ++ [])
      from by simp]
    rw [jsSplit_append (by decide) (hash_tok_disj hW.2 (by decide) (by decide)) []]
    rw [jsSplit_nil (by decide)]
  have hsplit4 : jsSplit ("min".toList) ('#' :: (D ++ "min".toList)) =
      [('#' :: D), []] := by
    rw [show ('#' :: (D ++ "min".toList) : Str) = ('#' :: D) ++ ("min".toList ++ [])
      from by simp]
    rw [jsSplit_append (by decide) (hash_tok_disj hD.2 (by decide) (by decide)) []]
    rw [jsSplit_nil (by decide)]
  -- the parse of the five lines
  have hparse : parseWorkoutLine [('#' :: C), ('#' :: N),
      ('#' :: (S ++ ("sets".toList ++ (R ++ "reps".toList)))),
      ('#' :: (W ++ "kg".toList)), ('#' :: (D ++ "min".toList))] =
      .ok (some { workoutName := N, sets := some (digitsVal S : Int),
                  reps := jsParseInt (R.drop 1), weight := jsParseFloat W,
                  duration := jsParseFloat D }) := by
    rw [parseWorkoutLine_five, hsplit2, hsplit2b]
    dsimp only [List.get?, List.getD, Option.getD, List.drop]
    rw [hsplitR, hsplit3, hsplit4]
    dsimp only [List.getD, List.get?, Option.getD, List.drop]
    rw [hN.2.1]
    rw [jsTrim_all_nonws (tok_nonws hStok.2), jsParseInt_digits hS.1 hS.2]
    rw [jsTrim_all_nonws (fun c hc => tok_nonws hRtok.2 c (List.mem_of_mem_drop hc))]
    rw [jsTrim_all_nonws (tok_nonws hW.2), jsTrim_all_nonws (tok_nonws hD.2)]
  -- the whole segment step
  have hstep : segStep (mkWfBlock C N S R W D) =
      SegResult.entry
        { workoutName := N, sets := some (digitsVal S : Int),
          reps := jsParseInt (R.drop 1), weight := jsParseFloat W,
          duration := jsParseFloat D, category := C } := by
    have hn1' : '\n' ∉ ('#' :: N) := by
      intro h
      rcases List.mem_cons.mp h with h | h
      · exact absurd h (by decide)
      · exact hn1 h
    have hn2' : '\n' ∉ ('#' :: (S ++ ("sets".toList ++ (R ++ "reps".toList)))) :=
      fun h => absurd (h2nw '\n' h) (by decide)
    have hn3' : '\n' ∉ ('#' :: (W ++ "kg".toList)) :=
      fun h => absurd (h3nw '\n' h) (by decide)
    have hn4' : '\n' ∉ ('#' :: (D ++ "min".toList)) :=
      fun h => absurd (h4nw '\n' h) (by decide)
    unfold mkWfBlock
    rw [segStep_block hn0 hn1' hn2' hn3' hn4' ht0 ht1 ht2 ht3 ht4, hparse]
    dsimp only
    rw [hC.2.1]
  -- semicolon-freeness of the block
  have hsemi : ';' ∉ mkWfBlock C N S R W D := by
    apply not_mem_joinSep (by decide)
    intro l hl
    simp only [List.mem_cons, List.not_mem_nil, or_false] at hl
    rcases hl with rfl | rfl | rfl | rfl | rfl
    · intro h
      rcases List.mem_cons.mp h with h | h
      · exact absurd h (by decide)
      · exact hC.2.2.2 h
    · intro h
      rcases List.mem_cons.mp h with h | h
      · exact absurd h (by decide)
      · exact hN.2.2.2 h
    · intro h
      rcases List.mem_cons.mp h with h | h
      · exact absurd h (by decide)
      rcases List.mem_append.mp h with h | h
      · exact absurd (hStok.2 ';' h) (by decide)
      rcases List.mem_append.mp h with h | h
      · exact absurd h (by decide)
      rcases List.mem_append.mp h with h | h
      · exact absurd (hRtok.2 ';' h) (by decide)
      · exact absurd h (by decide)
    · intro h
      rcases List.mem_cons.mp h with h | h
      · exact absurd h (by decide)
      rcases List.mem_append.mp h with h | h
      · exact absurd (hW.2 ';' h) (by decide)
      · exact absurd h (by decide)
    · intro h
      rcases List.mem_cons.mp h with h | h
      · exact absurd h (by decide)
      rcases List.mem_append.mp h with h | h
      · exact absurd (hD.2 ';' h) (by decide)
      · exact absurd h (by decide)
  -- non-emptiness and trim-invariance of the whole block
  have hshape : mkWfBlock C N S R W D =
      '#' :: (C ++ '\n' :: (('#' :: N) ++ '\n' ::
        (('#' :: (S ++ ("sets".toList ++ (R ++ "reps".toList)))) ++ '\n' ::
          (('#' :: (W ++ "kg".toList)) ++ '\n' :: ('#' :: (D ++ "min".toList)))))) := by
    simp [mkWfBlock, joinSep]
  have hne : mkWfBlock C N S R W D ≠ [] := by
    rw [hshape]; exact List.cons_ne_nil _ _
  have htrim : jsTrim (mkWfBlock C N S R W D) = mkWfBlock C N S R W D := by
    unfold mkWfBlock
    exact jsTrim_block ht4 (List.cons_ne_nil _ _)
  rw [addWorkout_single_entry hne hsemi htrim hstep]

/-- C3 witness: the amended theorem applied at the concrete block
`#Cat\n#Name\n#3sets12reps\n#50kg\n#30min` (so S="3", R="12", W="50",
D="30"). -/
theorem c3_amended_witness :
    (fieldOk ("Cat".toList) ∧ fieldOk ("Name".toList) ∧
      digitStr ("3".toList) ∧ digitStr ("12".toList) ∧
      tokStr ("50".toList) ∧ tokStr ("30".toList)) ∧
    (addWorkout (some sampleUser)
        (some (mkWfBlock ("Cat".toList) ("Name".toList) ("3".toList)
          ("12".toList) ("50".toList) ("30".toList))) =
      ⟨[], [mkInserted sampleUser
        { workoutName := "Name".toList,
          sets := some (digitsVal ("3".toList) : Int),
          reps := jsParseInt (("12".toList).drop 1),
          weight := jsParseFloat ("50".toList),
          duration := jsParseFloat ("30".toList),
          category := "Cat".toList }], true⟩ ∧
      (jsParseFloat ("50".toList)).isSome = true ∧
      (jsParseFloat ("30".toList)).isSome = true) :=
  ⟨⟨by decide, by decide, by decide, by decide, by decide, by decide⟩,
   c3_amended_wellformed_block sampleUser ("Cat".toList) ("Name".toList)
     ("3".toList) ("12".toList) ("50".toList) ("30".toList)
     (by decide) (by decide) (by decide) (by decide) (by decide) (by decide)
     (by decide) (by decide)⟩

/-! ## Claim C10 -/

/-- A block whose first line has the `#` marker but whose four later
lines do not. -/
def mkBareBlock (C N S R W D : Str) : Str :=
  joinSep '\n' [('#' :: C), N,
    (S ++ ("sets".toList ++ (R ++ "reps".toList))),
    (W ++ "kg".toList), (D ++ "min".toList)]

/-- C10: only the first line of a block is checked for the `#` prefix.
A block with a `#`-marked category line and at least five lines parses
successfully even when lines 2–5 lack the marker: the parser
unconditionally removes the first character of each extracted field, so
the exercise name, the sets count, the weight and the duration all lose
their first character (e.g. a weight line `72kg` yields
`weightKg = parseFloat("2") = 2`). -/
theorem c10_later_lines_first_char_dropped (u C N S R W D : Str)
    (hC : fieldOk C) (hN : fieldOk N) (hS : tokStr S) (hR : tokStr R)
    (hW : tokStr W) (hD : tokStr D) :
    addWorkout (some u) (some (mkBareBlock C N S R W D)) =
      ⟨[], [mkInserted u
        { workoutName := jsTrim (N.drop 1),
          sets := jsParseInt (S.drop 1),
          reps := jsParseInt (R.drop 1),
          weight := jsParseFloat (W.drop 1),
          duration := jsParseFloat (D.drop 1),
          category := C }], true⟩ := by
  have hsetsnw : ∀ c ∈ ("sets".toList), c.isWhitespace = false := by decide
  have hrepsnw : ∀ c ∈ ("reps".toList), c.isWhitespace = false := by decide
  have hkgnw : ∀ c ∈ ("kg".toList), c.isWhitespace = false := by decide
  have hminnw : ∀ c ∈ ("min".toList), c.isWhitespace = false := by decide
  have h2nw : ∀ c ∈ (S ++ ("sets".toList ++ (R ++ "reps".toList))),
      c.isWhitespace = false := by
    intro c hc
    rcases List.mem_append.mp hc with hc | hc
    · exact tok_nonws hS.2 c hc
    rcases List.mem_append.mp hc with hc | hc
    · exact hsetsnw c hc
    rcases List.mem_append.mp hc with hc | hc
    · exact tok_nonws hR.2 c hc
    · exact hrepsnw c hc
  have h3nw : ∀ c ∈ (W ++ "kg".toList), c.isWhitespace = false := by
    intro c hc
    rcases List.mem_append.mp hc with hc | hc
    · exact tok_nonws hW.2 c hc
    · exact hkgnw c hc
  have h4nw : ∀ c ∈ (D ++ "min".toList), c.isWhitespace = false := by
    intro c hc
    rcases List.mem_append.mp hc with hc | hc
    · exact tok_nonws hD.2 c hc
    · exact hminnw c hc
  have ht0 : jsTrim ('#' :: C) = '#' :: C := jsTrim_cons (by decide) hC.2.1 hC.1
  have ht1 : jsTrim N = N := hN.2.1
  have ht2 := jsTrim_all_nonws h2nw
  have ht3 := jsTrim_all_nonws h3nw
  have ht4 := jsTrim_all_nonws h4nw
  have hn0 : '\n' ∉ C := hC.2.2.1
  have hn1 : '\n' ∉ N := hN.2.2.1
  have hn2 : '\n' ∉ (S ++ ("sets".toList ++ (R ++ "reps".toList))) := fun h =>
    absurd (h2nw '\n' h) (by decide)
  have hn3 : '\n' ∉ (W ++ "kg".toList) := fun h => absurd (h3nw '\n' h) (by decide)
  have hn4 : '\n' ∉ (D ++ "min".toList) := fun h => absurd (h4nw '\n' h) (by decide)
  have hsplit2 : jsSplit ("sets".toList)
      (S ++ ("sets".toList ++ (R ++ "reps".toList))) =
      S :: jsSplit ("sets".toList) (R ++ "reps".toList) :=
    jsSplit_append (by decide) (tok_disj hS.2 (by decide)) _
  have hsplit2b : jsSplit ("sets".toList) (R ++ "reps".toList) =
      [R ++ "reps".toList] := by
    apply jsSplit_no_occ (c := 't') (by decide)
    intro h
    rcases List.mem_append.mp h with h | h
    · exact absurd (hR.2 't' h) (by decide)
    · exact absurd h (by decide)
  have hsplitR : jsSplit ("reps".toList) (R ++ "reps".toList) = [R, []] := by
    rw [show R ++ "reps".toList = R ++ ("reps".toList ++ []) from by simp]
    rw [jsSplit_append (by decide) (tok_disj hR.2 (by decide)) []]
    rw [jsSplit_nil (by decide)]
  have hsplit3 : jsSplit ("kg".toList) (W ++ "kg".toList) = [W, []] := by
    rw [show W ++ "kg".toList = W ++ ("kg".toList ++ []) from by simp]
    rw [jsSplit_append (by decide) (tok_disj hW.2 (by decide)) []]
    rw [jsSplit_nil (by decide)]
  have hsplit4 : jsSplit ("min".toList) (D ++ "min".toList) = [D, []] := by
    rw [show D ++ "min".toList = D ++ ("min".toList ++ []) from by simp]
    rw [jsSplit_append (by decide) (tok_disj hD.2 (by decide)) []]
    rw [jsSplit_nil (by decide)]
  have hparse : parseWorkoutLine [('#' :: C), N,
      (S ++ ("sets".toList ++ (R ++ "reps".toList))),
      (W ++ "kg".toList), (D ++ "min".toList)] =
      .ok (some { workoutName := jsTrim (N.drop 1),
                  sets := jsParseInt (S.drop 1),
                  reps := jsParseInt (R.drop 1),
                  weight := jsParseFloat (W.drop 1),
                  duration := jsParseFloat (D.drop 1) }) := by
    rw [parseWorkoutLine_five, hsplit2, hsplit2b]
    dsimp only [List.get?, List.getD, Option.getD]
    rw [hsplitR, hsplit3, hsplit4]
    dsimp only [List.getD, List.get?, Option.getD]
    rw [jsTrim_all_nonws (fun c hc => tok_nonws hS.2 c (List.mem_of_mem_drop hc))]
    rw [jsTrim_all_nonws (fun c hc => tok_nonws hR.2 c (List.mem_of_mem_drop hc))]
    rw [jsTrim_all_nonws (fun c hc => tok_nonws hW.2 c (List.mem_of_mem_drop hc))]
    rw [jsTrim_all_nonws (fun c hc => tok_nonws hD.2 c (List.mem_of_mem_drop hc))]
  have hstep : segStep (mkBareBlock C N S R W D) =
      SegResult.entry
        { workoutName := jsTrim (N.drop 1), sets := jsParseInt (S.drop 1),
          reps := jsParseInt (R.drop 1), weight := jsParseFloat (W.drop 1),
          duration := jsParseFloat (D.drop 1), category := C } := by
    unfold mkBareBlock
    rw [segStep_block hn0 hn1 hn2 hn3 hn4 ht0 ht1 ht2 ht3 ht4, hparse]
    dsimp only
    rw [hC.2.1]
  have hsemi : ';' ∉ mkBareBlock C N S R W D := by
    apply not_mem_joinSep (by decide)
    intro l hl
    simp only [List.mem_cons, List.not_mem_nil, or_false] at hl
    rcases hl with rfl | rfl | rfl | rfl | rfl
    · intro h
      rcases List.mem_cons.mp h with h | h
      · exact absurd h (by decide)
      · exact hC.2.2.2 h
    · exact hN.2.2.2
    · intro h
      rcases List.mem_append.mp h with h | h
      · exact absurd (hS.2 ';' h) (by decide)
      rcases List.mem_append.mp h with h | h
      · exact absurd h (by decide)
      rcases List.mem_append.mp h with h | h
      · exact absurd (hR.2 ';' h) (by decide)
      · exact absurd h (by decide)
    · intro h
      rcases List.mem_append.mp h with h | h
      · exact absurd (hW.2 ';' h) (by decide)
      · exact absurd h (by decide)
    · intro h
      rcases List.mem_append.mp h with h | h
      · exact absurd (hD.2 ';' h) (by decide)
      · exact absurd h (by decide)
  have hshape : mkBareBlock C N S R W D =
      '#' :: (C ++ '\n' :: (N ++ '\n' ::
        ((S ++ ("sets".toList ++ (R ++ "reps".toList))) ++ '\n' ::
          ((W ++ "kg".toList) ++ '\n' :: (D ++ "min".toList))))) := by
    simp [mkBareBlock, joinSep]
  have hne : mkBareBlock C N S R W D ≠ [] := by
    rw [hshape]; exact List.cons_ne_nil _ _
  have htrim : jsTrim (mkBareBlock C N S R W D) = mkBareBlock C N S R W D := by
    unfold mkBareBlock
    apply jsTrim_block ht4
    intro h
    have : ("min".toList : Str) = [] := by
      cases hD2 : (D ++ "min".toList : Str) with
      | nil => exact (List.append_eq_nil.mp hD2).2
      | cons x xs => rw [hD2] at h; cases h
    cases this
  rw [addWorkout_single_entry hne hsemi htrim hstep]

/-- C10 witness: the block `#Legs\nSquat\n3setsX12reps\n72kg\n30min`
(later lines unmarked): parse succeeds, the name comes out as `"quat"`
and the weight as `parseFloat("2") = 2`, exactly the silent
first-character drop the claim describes. -/
theorem c10_witness :
    (fieldOk ("Legs".toList) ∧ fieldOk ("Squat".toList) ∧
      tokStr ("3".toList) ∧ tokStr ("X12".toList) ∧
      tokStr ("72".toList) ∧ tokStr ("30".toList)) ∧
    addWorkout (some sampleUser)
        (some (mkBareBlock ("Legs".toList) ("Squat".toList) ("3".toList)
          ("X12".toList) ("72".toList) ("30".toList))) =
      ⟨[], [mkInserted sampleUser
        { workoutName := jsTrim (("Squat".toList).drop 1),
          sets := jsParseInt (("3".toList).drop 1),
          reps := jsParseInt (("X12".toList).drop 1),
          weight := jsParseFloat (("72".toList).drop 1),
          duration := jsParseFloat (("30".toList).drop 1),
          category := "Legs".toList }], true⟩ ∧
    jsParseFloat (("72".toList).drop 1) = some ⟨2, 1⟩ ∧
    jsTrim (("Squat".toList).drop 1) = "quat".toList :=
  ⟨⟨by decide, by decide, by decide, by decide, by decide, by decide⟩,
   c10_later_lines_first_char_dropped sampleUser ("Legs".toList) ("Squat".toList)
     ("3".toList) ("X12".toList) ("72".toList) ("30".toList)
     (by decide) (by decide) (by decide) (by decide) (by decide) (by decide),
   by decide, by decide⟩
